import Mathlib

/-!
Verification development for the ArchiveXM live-stream session and recording
subsystem, together with the frontend player/recording state logic.

Pure definitions below are shallow embeddings of the frontend source
(frontend/src/context/JukeboxContext.jsx, frontend/src/context/PlayerContext.jsx,
frontend/src/context/RecordingContext.jsx, frontend/src/components/RecordingPanel.jsx,
frontend/src/pages/ChannelDetailPage.jsx).  The backend services (Session
Manager, Schedule/DVR Cache, Recorder, Download service) are not part of the
source snapshot; definitions for them are modelled from the specification and
say so in their doc comments.
-/

namespace ArchiveXM

/-- A schedule/DVR track entry as rendered by the channel detail page:
artist, title, album, start timestamp (UTC), duration in ms, artwork URL. -/
structure Track where
  artist : String
  title : String
  album : String
  timestamp_utc : String
  duration_ms : Nat
  image_url : String
deriving DecidableEq

def defaultTrack : Track :=
  { artist := "", title := "", album := "", timestamp_utc := "", duration_ms := 0, image_url := "" }

/-- The track descriptor sent by the frontend download requests
(ChannelDetailPage.jsx, downloadSelected and downloadSingle): the schedule
entry fields plus the channel id. -/
structure TrackDescriptor where
  channel_id : String
  artist : String
  title : String
  album : String
  timestamp_utc : String
  duration_ms : Nat
  image_url : String
deriving DecidableEq

/-- Embeds the descriptor-building expression of downloadSelected and
downloadSingle (ChannelDetailPage.jsx): each descriptor copies the schedule
entry fields and attaches the page channel id. -/
def descriptorOfTrack (channelId : String) (t : Track) : TrackDescriptor :=
  { channel_id := channelId, artist := t.artist, title := t.title, album := t.album,
    timestamp_utc := t.timestamp_utc, duration_ms := t.duration_ms, image_url := t.image_url }

/-- Embeds downloadSelected (ChannelDetailPage.jsx): the bulk request body is
the list of descriptors built from the selected indices into schedule.tracks,
one per selected index (Array.from(selectedTracks).map). -/
def downloadSelectedRequest (channelId : String) (tracks : List Track) (selected : List Nat) :
    List TrackDescriptor :=
  selected.map (fun i => descriptorOfTrack channelId (tracks.getD i defaultTrack))

/-- DownloadJob status per the spec data model: pending, downloading,
completed or failed with retained error detail. -/
inductive JobStatus where
  | pending
  | downloading
  | completed
  | failed (detail : String)
deriving DecidableEq

structure DownloadJob where
  descriptor : TrackDescriptor
  status : JobStatus
deriving DecidableEq

/-- Modelled from the spec: the backend Download/Tagging Service is not in the
source snapshot.  Per the contract, downloadTrack(descriptor) creates a
DownloadJob that starts in pending and the call returns immediately. -/
def downloadTrack (d : TrackDescriptor) : DownloadJob :=
  { descriptor := d, status := JobStatus.pending }

/-- Modelled from the spec: the backend Download/Tagging Service is not in the
source snapshot.  Per the contract, downloadBulk(channelId, descriptors)
creates one pending DownloadJob per descriptor and returns immediately. -/
def downloadBulk (ds : List TrackDescriptor) : List DownloadJob :=
  ds.map downloadTrack

/-- The recording status payload read by the frontend (RecordingContext.jsx
checkStatus): recording flag, channel id, start time, elapsed seconds, tracks
recorded, and the current track descriptor when present. -/
structure StatusPayload where
  recording : Bool
  channel_id : String
  start_time : String
  elapsed_seconds : Nat
  tracks_recorded : Nat
  current_track : Option Track
deriving DecidableEq

/-- The client state produced by checkStatus (RecordingContext.jsx):
recordingData fields. -/
structure RecordingData where
  channelId : String
  startTime : String
  elapsedSeconds : Nat
  tracksRecorded : Nat
  currentTrack : Option Track
deriving DecidableEq

/-- Embeds checkStatus (RecordingContext.jsx, lines 13-35): on a payload with
recording true it sets isRecording true and fills recordingData from the
payload fields (current_track falling back to null when absent); on recording
false it sets isRecording false and recordingData null. -/
def checkStatus (d : StatusPayload) : Bool × Option RecordingData :=
  if d.recording then
    (true, some { channelId := d.channel_id, startTime := d.start_time,
                  elapsedSeconds := d.elapsed_seconds, tracksRecorded := d.tracks_recorded,
                  currentTrack := d.current_track })
  else
    (false, none)

/-- Recorder errors per the spec error taxonomy. -/
inductive RecordingError where
  | alreadyRecording
deriving DecidableEq

/-- A RecordingSession per the spec data model (the fields the claims need). -/
structure RecordingSession where
  channelId : String
  startTime : Nat
  tracksRecorded : Nat
deriving DecidableEq

/-- Modelled from the spec: the backend Recorder (backend/services, not in the
source snapshot).  Starting a recording is an atomic check-and-set on the
single active RecordingSession slot: it fails with AlreadyRecording if any
RecordingSession exists, otherwise creates the session. -/
def startRecordingCore (active : Option RecordingSession) (ch : String) (now : Nat) :
    Except RecordingError RecordingSession :=
  match active with
  | some _ => Except.error RecordingError.alreadyRecording
  | none => Except.ok { channelId := ch, startTime := now, tracksRecorded := 0 }

/-- The active-session slot after a start request: replaced only on success,
kept unchanged when the request fails. -/
def startRecordingState (active : Option RecordingSession) (ch : String) (now : Nat) :
    Option RecordingSession :=
  match startRecordingCore active ch now with
  | Except.ok s => some s
  | Except.error _ => active

/-- The three mutually exclusive renderings of RecordingPanel.jsx. -/
inductive PanelView where
  | activeRecordingControls
  | otherChannelNotice
  | startControl
deriving DecidableEq

/-- Embeds the RecordingPanel.jsx render branch (lines 64, 73-131):
isRecordingThisChannel shows the stop controls; otherwise, while a recording
is active on another channel it shows only the notice; otherwise the start
button. -/
def recordingPanelView (isRecording : Bool) (statusChannelId : Option String)
    (channelId : String) : PanelView :=
  if isRecording = true ∧ statusChannelId = some channelId then PanelView.activeRecordingControls
  else if isRecording = true then PanelView.otherChannelNotice
  else PanelView.startControl

/-- Whether a panel rendering contains the start-recording control. -/
def panelShowsStartControl : PanelView → Bool
  | PanelView.startControl => true
  | _ => false

/-- C1: at most one RecordingSession is active system-wide: with a recording
active, a start request for any channel fails with AlreadyRecording and the
active-session slot is unchanged; and the RecordingPanel rendered for a
different channel while recording shows the notice, which has no start
control. -/
theorem C1_single_active_recording (s : RecordingSession) (ch : String) (now : Nat)
    (chS chP : String) (h : chS ≠ chP) :
    startRecordingCore (some s) ch now = Except.error RecordingError.alreadyRecording
    ∧ startRecordingState (some s) ch now = some s
    ∧ recordingPanelView true (some chS) chP = PanelView.otherChannelNotice
    ∧ panelShowsStartControl (recordingPanelView true (some chS) chP) = false := by
  have hview : recordingPanelView true (some chS) chP = PanelView.otherChannelNotice := by
    unfold recordingPanelView
    rw [if_neg, if_pos rfl]
    rintro ⟨-, hc⟩
    exact h (Option.some.inj hc)
  refine ⟨rfl, rfl, hview, ?_⟩
  rw [hview]
  rfl

theorem C1_witness :
    ("rock" : String) ≠ "jazz"
    ∧ startRecordingCore (some ⟨"rock", 0, 2⟩) "jazz" 7
        = Except.error RecordingError.alreadyRecording
    ∧ startRecordingState (some ⟨"rock", 0, 2⟩) "jazz" 7 = some ⟨"rock", 0, 2⟩
    ∧ panelShowsStartControl (recordingPanelView true (some "rock") "jazz") = false := by
  have h := C1_single_active_recording ⟨"rock", 0, 2⟩ "jazz" 7 "rock" "jazz" (by decide)
  exact ⟨by decide, h.1, h.2.1, h.2.2.2⟩

/-- C4: checkStatus maps a status payload with recording true to isRecording
true and a recordingData holding exactly the payload channel id, start time,
elapsed seconds, tracks recorded and current track (none when absent), and a
payload with recording false to isRecording false with recordingData null. -/
theorem C4_check_status_fields (d : StatusPayload) :
    (checkStatus d).1 = d.recording
    ∧ (d.recording = true →
        ∃ r, (checkStatus d).2 = some r
          ∧ r.channelId = d.channel_id
          ∧ r.startTime = d.start_time
          ∧ r.elapsedSeconds = d.elapsed_seconds
          ∧ r.tracksRecorded = d.tracks_recorded
          ∧ r.currentTrack = d.current_track)
    ∧ (d.recording = false → (checkStatus d).2 = none) := by
  unfold checkStatus
  rcases hrec : d.recording with _ | _
  · simp [hrec]
  · refine ⟨by simp [hrec], ?_, by simp [hrec]⟩
    intro _
    refine ⟨{ channelId := d.channel_id, startTime := d.start_time,
              elapsedSeconds := d.elapsed_seconds, tracksRecorded := d.tracks_recorded,
              currentTrack := d.current_track }, ?_, rfl, rfl, rfl, rfl, rfl⟩
    simp [hrec]

theorem C4_witness :
    (StatusPayload.mk true "ch9" "t0" 42 3 none).recording = true
    ∧ ∃ r, (checkStatus (StatusPayload.mk true "ch9" "t0" 42 3 none)).2 = some r
        ∧ r.channelId = "ch9"
        ∧ r.startTime = "t0"
        ∧ r.elapsedSeconds = 42
        ∧ r.tracksRecorded = 3
        ∧ r.currentTrack = none :=
  ⟨by decide, (C4_check_status_fields (StatusPayload.mk true "ch9" "t0" 42 3 none)).2.1 (by decide)⟩

/-- C7: downloads are accepted as asynchronous jobs (every created job starts
pending, not a final result), and the bulk request built by downloadSelected
contains exactly one descriptor per selected track, whose channel_id, artist,
title, album, timestamp_utc, duration_ms and image_url equal the corresponding
schedule entry fields. -/
theorem C7_download_request_shape (channelId : String) (tracks : List Track)
    (selected : List Nat) :
    (downloadSelectedRequest channelId tracks selected).length = selected.length
    ∧ (∀ k, k < selected.length →
        (downloadSelectedRequest channelId tracks selected).getD k
            (descriptorOfTrack channelId defaultTrack)
          = descriptorOfTrack channelId (tracks.getD (selected.getD k 0) defaultTrack))
    ∧ (∀ j ∈ downloadBulk (downloadSelectedRequest channelId tracks selected),
        j.status = JobStatus.pending)
    ∧ (downloadBulk (downloadSelectedRequest channelId tracks selected)).length
        = selected.length
    ∧ (∀ t : Track, (downloadTrack (descriptorOfTrack channelId t)).status = JobStatus.pending) := by
  refine ⟨by simp [downloadSelectedRequest], ?_, ?_, by simp [downloadBulk, downloadSelectedRequest], fun _ => rfl⟩
  · intro k hk
    unfold downloadSelectedRequest
    rw [List.getD_eq_getElem?_getD, List.getElem?_map]
    rw [List.getElem?_eq_getElem hk]
    simp [List.getD_eq_getElem?_getD, List.getElem?_eq_getElem hk]
  · intro j hj
    simp only [downloadBulk, List.mem_map] at hj
    obtain ⟨d, -, rfl⟩ := hj
    rfl

theorem C7_witness :
    (0 : Nat) < 1
    ∧ (downloadSelectedRequest "ch1" [⟨"ar", "ti", "al", "ts", 5, "u"⟩] [0]).getD 0
        (descriptorOfTrack "ch1" defaultTrack)
      = descriptorOfTrack "ch1" ((([⟨"ar", "ti", "al", "ts", 5, "u"⟩] : List Track)).getD (([0] : List Nat).getD 0 0) defaultTrack) :=
  ⟨by decide,
    (C7_download_request_shape "ch1" [⟨"ar", "ti", "al", "ts", 5, "u"⟩] [0]).2.1 0 (by decide)⟩

/-- A ScheduleEntry per the spec data model: channel id, artist, title, album,
start timestamp (UTC, seconds), duration, artwork URL.  Natural key:
(channel, start timestamp). -/
structure ScheduleEntry where
  channel : String
  start : Nat
  artist : String
  title : String
  album : String
  durationMs : Nat
  imageUrl : String
deriving DecidableEq

def entryKey (e : ScheduleEntry) : String × Nat := (e.channel, e.start)

/-- Whether the cache already holds an entry with the same natural key. -/
def keyPresent (cache : List ScheduleEntry) (e : ScheduleEntry) : Bool :=
  cache.any (fun c => c.channel == e.channel && c.start == e.start)

/-- Modelled from the spec: the backend Schedule/DVR Cache (backend/services,
not in the source snapshot).  Merge policy: a pulled entry is appended only if
its natural key (channel, start timestamp) is not already present. -/
def mergeEntries (cache : List ScheduleEntry) (fresh : List ScheduleEntry) :
    List ScheduleEntry :=
  fresh.foldl (fun acc e => if keyPresent acc e then acc else acc ++ [e]) cache

/-- Modelled from the spec: eviction during refresh drops the channel entries
whose start timestamp is older than now minus the configured window. -/
def evictOld (cache : List ScheduleEntry) (ch : String) (now window : Nat) :
    List ScheduleEntry :=
  cache.filter (fun e => !(e.channel == ch) || decide (now ≤ e.start + window))

/-- Modelled from the spec: refresh(channelId) pulls fresh metadata, merges it
under natural-key dedup, and performs the window eviction in the same call
(no separate timer). -/
def refresh (cache : List ScheduleEntry) (ch : String) (fresh : List ScheduleEntry)
    (now window : Nat) : List ScheduleEntry :=
  evictOld (mergeEntries cache fresh) ch now window

/-- The configured retention window, default 5 hours (in seconds). -/
def defaultWindowSeconds : Nat := 5 * 3600

/-- One refresh(channel) call with the fresh upstream entries it pulled and
the clock at which it ran. -/
structure RefreshCall where
  channel : String
  fresh : List ScheduleEntry
  now : Nat
  window : Nat
deriving DecidableEq

def applyRefresh (cache : List ScheduleEntry) (q : RefreshCall) : List ScheduleEntry :=
  refresh cache q.channel q.fresh q.now q.window

/-- The cache after a whole sequence of refresh calls, starting empty. -/
def runRefreshes (calls : List RefreshCall) : List ScheduleEntry :=
  calls.foldl applyRefresh []

/-- No two cache entries share the natural key. -/
def NoDupKeys (cache : List ScheduleEntry) : Prop :=
  (cache.map entryKey).Nodup

theorem keyPresent_false_not_mem {cache : List ScheduleEntry} {e : ScheduleEntry}
    (h : keyPresent cache e = false) : entryKey e ∉ cache.map entryKey := by
  intro hmem
  obtain ⟨c, hc, hkey⟩ := List.mem_map.mp hmem
  have h1 : c.channel = e.channel := congrArg Prod.fst hkey
  have h2 : c.start = e.start := congrArg Prod.snd hkey
  have := List.any_eq_false.mp h c hc
  simp [h1, h2] at this

theorem mergeEntries_noDupKeys {cache : List ScheduleEntry} (fresh : List ScheduleEntry)
    (h : NoDupKeys cache) : NoDupKeys (mergeEntries cache fresh) := by
  induction fresh generalizing cache with
  | nil => exact h
  | cons e fresh ih =>
    show NoDupKeys (List.foldl _ (if keyPresent cache e then cache else cache ++ [e]) fresh)
    by_cases hp : keyPresent cache e = true
    · rw [if_pos hp]
      exact ih h
    · rw [if_neg hp]
      refine ih ?_
      have hnot := keyPresent_false_not_mem (Bool.eq_false_iff.mpr hp)
      unfold NoDupKeys at h ⊢
      rw [List.map_append, List.nodup_append]
      exact ⟨h, List.nodup_singleton _, by
        intro x hx hx1
        simp only [List.map_cons, List.map_nil, List.mem_singleton] at hx1
        exact hnot (hx1 ▸ hx)⟩

theorem evictOld_noDupKeys {cache : List ScheduleEntry} {ch : String} {now window : Nat}
    (h : NoDupKeys cache) : NoDupKeys (evictOld cache ch now window) := by
  unfold NoDupKeys evictOld
  exact h.sublist (List.Sublist.map entryKey (List.filter_sublist _))

theorem runRefreshes_aux (calls : List RefreshCall) (cache : List ScheduleEntry)
    (h : NoDupKeys cache) : NoDupKeys (calls.foldl applyRefresh cache) := by
  induction calls generalizing cache with
  | nil => exact h
  | cons q calls ih =>
    exact ih _ (evictOld_noDupKeys (mergeEntries_noDupKeys q.fresh h))

/-- C2: over every sequence of refresh calls the cache never contains two
entries with the same (channel, start) natural key, and a single-entry merge
appends the entry exactly when its key is absent (hence refresh is idempotent
under repeated polling of the same data). -/
theorem C2_refresh_natural_key_dedup (calls : List RefreshCall) :
    NoDupKeys (runRefreshes calls)
    ∧ (∀ (cache : List ScheduleEntry) (e : ScheduleEntry),
        mergeEntries cache [e] = if keyPresent cache e then cache else cache ++ [e]) := by
  exact ⟨runRefreshes_aux calls [] List.nodup_nil, fun _ _ => rfl⟩

/-- C6: after any refresh, every retained entry for the refreshed channel has
a start timestamp no older than now minus the window; with the default window
that is now minus 5 hours.  Eviction is part of refresh itself. -/
theorem C6_eviction_window (cache : List ScheduleEntry) (ch : String)
    (fresh : List ScheduleEntry) (now window : Nat) :
    (∀ e ∈ refresh cache ch fresh now window, e.channel = ch → now ≤ e.start + window)
    ∧ refresh cache ch fresh now window
        = evictOld (mergeEntries cache fresh) ch now window := by
  refine ⟨?_, rfl⟩
  intro e he hch
  have := List.of_mem_filter he
  rcases Bool.or_eq_true _ _ |>.mp this with hne | hle
  · simp [hch] at hne
  · exact of_decide_eq_true hle

theorem C6_witness :
    (⟨"ch", 17000, "a", "t", "al", 1, "u"⟩ : ScheduleEntry)
        ∈ refresh [⟨"ch", 10, "b", "s", "bl", 1, "v"⟩] "ch"
            [⟨"ch", 17000, "a", "t", "al", 1, "u"⟩] 20000 defaultWindowSeconds
    ∧ (⟨"ch", 17000, "a", "t", "al", 1, "u"⟩ : ScheduleEntry).channel = "ch"
    ∧ 20000 ≤ (⟨"ch", 17000, "a", "t", "al", 1, "u"⟩ : ScheduleEntry).start + defaultWindowSeconds := by
  refine ⟨by decide, by decide, ?_⟩
  exact (C6_eviction_window [⟨"ch", 10, "b", "s", "bl", 1, "v"⟩] "ch"
    [⟨"ch", 17000, "a", "t", "al", 1, "u"⟩] 20000 defaultWindowSeconds).1
    ⟨"ch", 17000, "a", "t", "al", 1, "u"⟩ (by decide) (by decide)

/-- Modelled from the spec: the backend Recorder graceful stop (backend not in
the source snapshot).  After a stop-wait-for-track request the recorder keeps
capturing and watches the schedule metadata each poll tick; it finalizes at
the first tick whose current-track identity differs from the remembered one,
and in any case after maxWait ticks.  cur is the remembered track identity and
meta the sequence of observed current-track identities. -/
def stopDelay (cur : String) : Nat → List String → Nat
  | 0, _ => 0
  | b + 1, [] => b + 1
  | b + 1, m :: ms => if m = cur then stopDelay cur b ms + 1 else 0

theorem stopDelay_le (cur : String) (maxWait : Nat) (meta : List String) :
    stopDelay cur maxWait meta ≤ maxWait := by
  induction maxWait generalizing meta with
  | zero => exact Nat.le_refl _
  | succ b ih =>
    cases meta with
    | nil => exact Nat.le_refl _
    | cons m ms =>
      unfold stopDelay
      by_cases hm : m = cur
      · rw [if_pos hm]
        exact Nat.succ_le_succ (ih ms)
      · rw [if_neg hm]
        exact Nat.zero_le _

theorem stopDelay_no_early (cur : String) (maxWait : Nat) (meta : List String) :
    ∀ j, j < stopDelay cur maxWait meta → meta.getD j cur = cur := by
  induction maxWait generalizing meta with
  | zero => intro j hj; exact absurd hj (Nat.not_lt_zero j)
  | succ b ih =>
    cases meta with
    | nil => intro j hj; rfl
    | cons m ms =>
      intro j hj
      unfold stopDelay at hj
      by_cases hm : m = cur
      · rw [if_pos hm] at hj
        cases j with
        | zero => exact hm
        | succ j => exact ih ms j (Nat.lt_of_succ_lt_succ hj)
      · rw [if_neg hm] at hj
        exact absurd hj (Nat.not_lt_zero j)

theorem stopDelay_boundary (cur : String) (maxWait : Nat) (meta : List String) :
    stopDelay cur maxWait meta = maxWait
    ∨ meta.getD (stopDelay cur maxWait meta) cur ≠ cur := by
  induction maxWait generalizing meta with
  | zero => exact Or.inl rfl
  | succ b ih =>
    cases meta with
    | nil => exact Or.inl rfl
    | cons m ms =>
      unfold stopDelay
      by_cases hm : m = cur
      · rw [if_pos hm]
        rcases ih ms with h | h
        · exact Or.inl (by rw [h])
        · exact Or.inr (by simpa using h)
      · rw [if_neg hm]
        exact Or.inr (by simpa using hm)

/-- C5: a graceful stop does not finalize before the next detected track
boundary (every tick before the finalization still shows the remembered
track), finalizes only at a boundary or at the maxWait ceiling, and the wait
is always bounded by maxWait, so a stalled metadata feed cannot make it wait
forever. -/
theorem C5_graceful_stop_bounded (cur : String) (maxWait : Nat) (meta : List String) :
    stopDelay cur maxWait meta ≤ maxWait
    ∧ (∀ j, j < stopDelay cur maxWait meta → meta.getD j cur = cur)
    ∧ (stopDelay cur maxWait meta = maxWait
        ∨ meta.getD (stopDelay cur maxWait meta) cur ≠ cur) :=
  ⟨stopDelay_le cur maxWait meta, stopDelay_no_early cur maxWait meta,
    stopDelay_boundary cur maxWait meta⟩

theorem C5_witness :
    (0 : Nat) < stopDelay "songA" 3 ["songA", "songB"]
    ∧ (["songA", "songB"] : List String).getD 0 "songA" = "songA" :=
  ⟨by decide, (C5_graceful_stop_bounded "songA" 3 ["songA", "songB"]).2.1 0 (by decide)⟩

/-- The playing flags of the two audio players: the jukebox (JukeboxProvider)
and the live-stream player (PlayerProvider), both in JukeboxContext.jsx. -/
structure PlayersState where
  jukeboxPlaying : Bool
  livePlaying : Bool
deriving DecidableEq

/-- Embeds the pauseLive callback registered by PlayerProvider with the
jukebox (registerPauseLiveStream effect, lines 392-405): pauses the live
audio element and clears its isPlaying flag. -/
def pauseLiveCallback (st : PlayersState) : PlayersState :=
  { st with livePlaying := false }

/-- Embeds jukebox.pause (JukeboxProvider): clears the jukebox isPlaying
flag. -/
def jukeboxPauseFn (st : PlayersState) : PlayersState :=
  { st with jukeboxPlaying := false }

/-- The user-triggered operations of the two players, with the Boolean guards
each operation reads (whether the jukebox has a current track, whether the
queue or track list passed in is non-empty, whether a channel change is in
progress, whether the stream started successfully). -/
inductive PlayerOp where
  | jbPlayTrack
  | jbTogglePlay (hasTrack : Bool)
  | jbPause
  | jbResume (hasTrack : Bool)
  | jbPlayQueue (queueNonempty : Bool)
  | jbPlayAll (tracksNonempty : Bool)
  | jbShuffleAll (tracksNonempty : Bool)
  | jbClearQueue
  | livePlayChannel (changing : Bool) (success : Bool)
  | liveTogglePlay
  | liveStop
deriving DecidableEq

/-- Embeds the playback-relevant effect of each operation in
JukeboxContext.jsx on the two playing flags.  Every jukebox operation that
starts or resumes playback calls pauseLiveStream first; playChannel and the
live togglePlay resume branch call jukebox.pause first; playChannel ends with
isPlaying true only when startup succeeds and is a no-op while
isChangingChannel is set. -/
def playerStep (st : PlayersState) : PlayerOp → PlayersState
  | PlayerOp.jbPlayTrack => { pauseLiveCallback st with jukeboxPlaying := true }
  | PlayerOp.jbTogglePlay hasTrack =>
      if hasTrack = false then st
      else if st.jukeboxPlaying then { st with jukeboxPlaying := false }
      else { pauseLiveCallback st with jukeboxPlaying := true }
  | PlayerOp.jbPause =>
      if st.jukeboxPlaying then { st with jukeboxPlaying := false } else st
  | PlayerOp.jbResume hasTrack =>
      if hasTrack && !st.jukeboxPlaying then { pauseLiveCallback st with jukeboxPlaying := true }
      else st
  | PlayerOp.jbPlayQueue ne =>
      if ne then { pauseLiveCallback st with jukeboxPlaying := true } else st
  | PlayerOp.jbPlayAll ne =>
      if ne then { pauseLiveCallback st with jukeboxPlaying := true } else st
  | PlayerOp.jbShuffleAll ne =>
      if ne then { pauseLiveCallback st with jukeboxPlaying := true } else st
  | PlayerOp.jbClearQueue => { st with jukeboxPlaying := false }
  | PlayerOp.livePlayChannel changing success =>
      if changing then st
      else { jukeboxPlaying := false, livePlaying := success }
  | PlayerOp.liveTogglePlay =>
      if st.livePlaying then { st with livePlaying := false }
      else { jukeboxPauseFn st with livePlaying := true }
  | PlayerOp.liveStop => { st with livePlaying := false }

def bothPlaying (st : PlayersState) : Bool :=
  st.jukeboxPlaying && st.livePlaying

/-- Initial state: neither player is playing. -/
def initPlayers : PlayersState := { jukeboxPlaying := false, livePlaying := false }

def runPlayers (ops : List PlayerOp) : PlayersState :=
  ops.foldl playerStep initPlayers

theorem playerStep_preserves (st : PlayersState) (op : PlayerOp)
    (h : bothPlaying st = false) : bothPlaying (playerStep st op) = false := by
  obtain ⟨jb, lv⟩ := st
  cases op with
  | jbTogglePlay b =>
      cases b <;> cases jb <;> cases lv <;>
        simp_all [playerStep, bothPlaying, pauseLiveCallback]
  | jbResume b =>
      cases b <;> cases jb <;> cases lv <;>
        simp_all [playerStep, bothPlaying, pauseLiveCallback]
  | jbPlayQueue b =>
      cases b <;> cases jb <;> cases lv <;>
        simp_all [playerStep, bothPlaying, pauseLiveCallback]
  | jbPlayAll b =>
      cases b <;> cases jb <;> cases lv <;>
        simp_all [playerStep, bothPlaying, pauseLiveCallback]
  | jbShuffleAll b =>
      cases b <;> cases jb <;> cases lv <;>
        simp_all [playerStep, bothPlaying, pauseLiveCallback]
  | livePlayChannel c s =>
      cases c <;> cases s <;> cases jb <;> cases lv <;>
        simp_all [playerStep, bothPlaying]
  | _ =>
      cases jb <;> cases lv <;>
        simp_all [playerStep, bothPlaying, pauseLiveCallback, jukeboxPauseFn]

theorem runPlayers_aux (ops : List PlayerOp) (st : PlayersState)
    (h : bothPlaying st = false) : bothPlaying (ops.foldl playerStep st) = false := by
  induction ops generalizing st with
  | nil => exact h
  | cons op ops ih => exact ih _ (playerStep_preserves st op h)

/-- C8: the jukebox and the live-stream player are mutually exclusive.  Every
jukebox start (playTrack, togglePlay resume branch, resume, playQueue,
playAll, shuffleAll) leaves the live player paused; playChannel (not guarded)
and the live togglePlay resume branch leave the jukebox paused; and after any
sequence of operations from the initial state the two players are never both
playing. -/
theorem C8_players_mutually_exclusive :
    (∀ st : PlayersState,
        (playerStep st PlayerOp.jbPlayTrack).livePlaying = false
        ∧ (playerStep { st with jukeboxPlaying := false } (PlayerOp.jbTogglePlay true)).livePlaying = false
        ∧ (playerStep { st with jukeboxPlaying := false } (PlayerOp.jbResume true)).livePlaying = false
        ∧ (playerStep st (PlayerOp.jbPlayQueue true)).livePlaying = false
        ∧ (playerStep st (PlayerOp.jbPlayAll true)).livePlaying = false
        ∧ (playerStep st (PlayerOp.jbShuffleAll true)).livePlaying = false
        ∧ (∀ success, (playerStep st (PlayerOp.livePlayChannel false success)).jukeboxPlaying = false)
        ∧ (playerStep { st with livePlaying := false } PlayerOp.liveTogglePlay).jukeboxPlaying = false)
    ∧ (∀ ops : List PlayerOp, bothPlaying (runPlayers ops) = false) := by
  constructor
  · intro st
    obtain ⟨jb, lv⟩ := st
    refine ⟨rfl, ?_, ?_, rfl, rfl, rfl, fun success => rfl, rfl⟩
    · simp [playerStep, pauseLiveCallback]
    · simp [playerStep, pauseLiveCallback]
  · intro ops
    exact runPlayers_aux ops initPlayers rfl

/-- The live-stream player state tracked by PlayerProvider
(JukeboxContext.jsx): currentChannel, currentTrack, isPlaying, isLoading,
error, plus the isChangingChannel ref used as a re-entrancy guard. -/
structure LivePlayerState where
  currentChannel : Option String
  currentTrack : Option Track
  isPlaying : Bool
  isLoading : Bool
  error : Option String
  isChangingChannel : Bool
deriving DecidableEq

/-- The ways the asynchronous startup inside playChannel can run, one per
source path: HLS manifest parsed with play success or failure, a fatal
default HLS error, native HLS playback success or failure, or no HLS
support. -/
inductive StartOutcome where
  | manifestOkPlayOk
  | manifestOkPlayFail
  | fatalDefaultError
  | nativeOk
  | nativeFail
  | notSupported
deriving DecidableEq

/-- Embeds playChannel (JukeboxContext.jsx, lines 407-549) on the modelled
state: returns the state unchanged when channel is null or the
isChangingChannel guard is set; otherwise sets the guard, clears the old
playback state, sets isLoading and the new channel, and finishes according to
the startup outcome. -/
def playChannel (st : LivePlayerState) (channel : Option String)
    (outcome : StartOutcome) : LivePlayerState :=
  match channel with
  | none => st
  | some ch =>
    if st.isChangingChannel then st
    else
      let cleaned : LivePlayerState :=
        { st with isChangingChannel := true, isPlaying := false,
                  currentTrack := none, error := none }
      let loading : LivePlayerState :=
        { cleaned with isLoading := true, currentChannel := some ch }
      match outcome with
      | StartOutcome.manifestOkPlayOk =>
          { loading with isLoading := false, isChangingChannel := false, isPlaying := true }
      | StartOutcome.manifestOkPlayFail =>
          { loading with isLoading := false, isChangingChannel := false,
                         error := some "Failed to start playback" }
      | StartOutcome.fatalDefaultError =>
          { loading with isLoading := false, isChangingChannel := false,
                         error := some "Stream error occurred" }
      | StartOutcome.nativeOk =>
          { loading with isLoading := false, isPlaying := true, isChangingChannel := false }
      | StartOutcome.nativeFail =>
          { loading with isLoading := false, error := some "Failed to start playback",
                         isChangingChannel := false }
      | StartOutcome.notSupported =>
          { loading with error := some "HLS not supported in this browser",
                         isLoading := false, isChangingChannel := false }

/-- C10: while a channel change is in progress (isChangingChannel set) a
concurrent playChannel call returns immediately: currentChannel,
currentTrack, isPlaying, isLoading and error are all unchanged, whatever the
requested channel and however the startup would have gone. -/
theorem C10_play_channel_guard (st : LivePlayerState) (ch : String)
    (outcome : StartOutcome) (h : st.isChangingChannel = true) :
    (playChannel st (some ch) outcome).currentChannel = st.currentChannel
    ∧ (playChannel st (some ch) outcome).currentTrack = st.currentTrack
    ∧ (playChannel st (some ch) outcome).isPlaying = st.isPlaying
    ∧ (playChannel st (some ch) outcome).isLoading = st.isLoading
    ∧ (playChannel st (some ch) outcome).error = st.error := by
  have hid : playChannel st (some ch) outcome = st := by
    simp [playChannel, h]
  rw [hid]
  exact ⟨rfl, rfl, rfl, rfl, rfl⟩

theorem C10_witness :
    (LivePlayerState.mk (some "old") none true false none true).isChangingChannel = true
    ∧ (playChannel (LivePlayerState.mk (some "old") none true false none true)
          (some "new") StartOutcome.manifestOkPlayOk).currentChannel
        = (LivePlayerState.mk (some "old") none true false none true).currentChannel :=
  ⟨by decide,
    (C10_play_channel_guard (LivePlayerState.mk (some "old") none true false none true)
      "new" StartOutcome.manifestOkPlayOk (by decide)).1⟩

/-- The jukebox queue state tracked by JukeboxProvider (JukeboxContext.jsx):
the queue of track ids, the currentIndex (-1 when nothing selected, as in the
source), and the isPlaying flag. -/
structure JukeboxQueueState where
  queue : List Nat
  currentIndex : Int
  isPlaying : Bool
deriving DecidableEq

/-- Embeds removeFromQueue (JukeboxContext.jsx, lines 189-210): splice the
index out of the queue; if the removed index is below currentIndex decrement
it; if it equals currentIndex then with more than one queued track the code
only restarts the audio element (it never updates currentIndex or isPlaying),
and with a single queued track it resets currentIndex to -1 and stops. -/
def removeFromQueue (st : JukeboxQueueState) (index : Nat) : JukeboxQueueState :=
  let newQueue := st.queue.eraseIdx index
  if (index : Int) < st.currentIndex then
    { st with queue := newQueue, currentIndex := st.currentIndex - 1 }
  else if (index : Int) = st.currentIndex then
    if 1 < st.queue.length then
      { st with queue := newQueue }
    else
      { queue := newQueue, currentIndex := -1, isPlaying := false }
  else
    { st with queue := newQueue }

/-- Embeds currentTrack (JukeboxContext.jsx, line 33, queue[currentIndex] ||
null): none when the index is negative or out of range. -/
def jbCurrentTrack (st : JukeboxQueueState) : Option Nat :=
  if st.currentIndex < 0 then none else st.queue[st.currentIndex.toNat]?

/-- currentIndex is -1 or a valid index into the queue. -/
def ValidIndex (st : JukeboxQueueState) : Prop :=
  st.currentIndex = -1
  ∨ (0 ≤ st.currentIndex ∧ st.currentIndex < (st.queue.length : Int))

instance (st : JukeboxQueueState) : Decidable (ValidIndex st) := by
  unfold ValidIndex
  infer_instance

/-- C9 counterexample: removing the currently playing track when it is the
last of a two-element queue leaves currentIndex at 1 while the updated queue
has length 1, so currentIndex is neither -1 nor valid, and currentTrack is
null even though isPlaying is still true. -/
theorem C9_counterexample :
    ¬ ValidIndex (removeFromQueue ⟨[10, 20], 1, true⟩ 1)
    ∧ (removeFromQueue ⟨[10, 20], 1, true⟩ 1).isPlaying = true
    ∧ jbCurrentTrack (removeFromQueue ⟨[10, 20], 1, true⟩ 1) = none
    ∧ (removeFromQueue ⟨[10, 20], 1, true⟩ 1).currentIndex = 1
    ∧ (removeFromQueue ⟨[10, 20], 1, true⟩ 1).queue.length = 1 := by
  decide

theorem getElem?_eraseIdx_of_le {α : Type} (l : List α) (i j : Nat) (h : i ≤ j) :
    (l.eraseIdx i)[j]? = l[j + 1]? := by
  induction l generalizing i j with
  | nil => simp [List.eraseIdx]
  | cons a l ih =>
    cases i with
    | zero => simp [List.eraseIdx]
    | succ i =>
      cases j with
      | zero => exact absurd h (by omega)
      | succ j =>
        rw [List.eraseIdx_cons_succ, List.getElem?_cons_succ, List.getElem?_cons_succ]
        exact ih i j (Nat.le_of_succ_le_succ h)

/-- C9 amended: for a well-formed queue state and an in-range index, after
removeFromQueue(index) the currentIndex is -1 or a valid index into the
updated queue EXCEPT in the case the counterexample forces (the removed index
equals currentIndex and is the last position of a queue with more than one
element, where currentIndex keeps its old value and falls out of range); and
whenever the removed index is strictly below currentIndex the current track
is unchanged. -/
theorem C9_remove_from_queue_amended (st : JukeboxQueueState) (index : Nat)
    (hidx : index < st.queue.length) (hv : ValidIndex st)
    (hexc : ¬((index : Int) = st.currentIndex
              ∧ index + 1 = st.queue.length ∧ 1 < st.queue.length)) :
    ValidIndex (removeFromQueue st index)
    ∧ ((index : Int) < st.currentIndex →
        jbCurrentTrack (removeFromQueue st index) = jbCurrentTrack st) := by
  obtain ⟨l, ci, pl⟩ := st
  simp only [ValidIndex] at hv ⊢
  simp only at hidx hexc ⊢
  have hlen : (l.eraseIdx index).length = l.length - 1 := by
    rw [List.length_eraseIdx]
    simp [hidx]
  by_cases hlt : (index : Int) < ci
  · have hci0 : (1 : Int) ≤ ci := by omega
    have hcilen : ci < (l.length : Int) := by
      rcases hv with h | ⟨-, h⟩
      · omega
      · exact h
    constructor
    · simp only [removeFromQueue, if_pos hlt]
      right
      constructor
      · omega
      · rw [hlen, Nat.cast_sub (by omega : 1 ≤ l.length)]
        push_cast
        omega
    · intro _
      simp only [removeFromQueue, if_pos hlt, jbCurrentTrack]
      rw [if_neg (by omega : ¬ci - 1 < 0), if_neg (by omega : ¬ci < 0)]
      have htn : (ci - 1).toNat + 1 = ci.toNat := by omega
      have hle : index ≤ (ci - 1).toNat := by omega
      rw [getElem?_eraseIdx_of_le l index (ci - 1).toNat hle, htn]
  · by_cases heq : (index : Int) = ci
    · by_cases hlong : 1 < l.length
      · have hne : index + 1 ≠ l.length := fun hcon => hexc ⟨heq, hcon, hlong⟩
        refine ⟨?_, fun hcon => absurd hcon hlt⟩
        simp only [removeFromQueue, if_neg hlt, if_pos heq, if_pos hlong]
        right
        constructor
        · omega
        · rw [hlen, Nat.cast_sub (by omega : 1 ≤ l.length)]
          push_cast
          omega
      · refine ⟨?_, fun hcon => absurd hcon hlt⟩
        simp only [removeFromQueue, if_neg hlt, if_pos heq, if_neg hlong]
        left
        trivial
    · refine ⟨?_, fun hcon => absurd hcon hlt⟩
      simp only [removeFromQueue, if_neg hlt, if_neg heq]
      rcases hv with h | ⟨h0, h1⟩
      · left; exact h
      · right
        refine ⟨h0, ?_⟩
        rw [hlen, Nat.cast_sub (by omega : 1 ≤ l.length)]
        push_cast
        omega

theorem C9_witness :
    (1 : Nat) < ([5, 6, 7] : List Nat).length
    ∧ ValidIndex ⟨[5, 6, 7], 2, true⟩
    ∧ ¬(((1 : Nat) : Int) = (2 : Int) ∧ 1 + 1 = ([5, 6, 7] : List Nat).length
        ∧ 1 < ([5, 6, 7] : List Nat).length)
    ∧ ValidIndex (removeFromQueue ⟨[5, 6, 7], 2, true⟩ 1)
    ∧ jbCurrentTrack (removeFromQueue ⟨[5, 6, 7], 2, true⟩ 1)
        = jbCurrentTrack ⟨[5, 6, 7], 2, true⟩ := by
  have h := C9_remove_from_queue_amended ⟨[5, 6, 7], 2, true⟩ 1 (by decide)
    (by decide) (by decide)
  exact ⟨by decide, by decide, by decide, h.1, h.2 (by decide)⟩

/-- A Credential per the spec data model (the fields the Session Manager
claims need): identifier, max concurrent streams, active stream count, active
flag, cached session validity. -/
structure Credential where
  id : Nat
  maxConcurrentStreams : Nat
  activeStreams : Int
  isActive : Bool
  sessionValid : Bool
deriving DecidableEq

/-- An ephemeral Session: its handle and the owning credential. -/
structure SessionRec where
  sid : Nat
  credId : Nat
deriving DecidableEq

/-- The Session Manager state: the credential pool, the live sessions, and
the next session handle to hand out. -/
structure SMState where
  creds : List Credential
  sessions : List SessionRec
  nextSid : Nat
deriving DecidableEq

/-- Modelled from the spec: the selection predicate of the Session Manager
(backend/services, not in the source snapshot): active, valid, and
activeStreams below maxStreams. -/
def hasCapacity (c : Credential) : Bool :=
  c.isActive && c.sessionValid && decide (c.activeStreams < (c.maxConcurrentStreams : Int))

/-- Adjust the active-stream count of the credential with the given id. -/
def bumpCred (cid : Nat) (delta : Int) (cs : List Credential) : List Credential :=
  cs.map (fun c => if c.id = cid then { c with activeStreams := c.activeStreams + delta } else c)

/-- Modelled from the spec: acquireSession iterates credentials in stable
order, picks the first active valid one with activeStreams below max, creates
a session backed by it and increments its count; fails (NoCapacityAvailable)
when all are saturated. -/
def acquireSession (st : SMState) : Option (Nat × SMState) :=
  match st.creds.find? hasCapacity with
  | none => none
  | some c =>
      some (st.nextSid,
        { creds := bumpCred c.id 1 st.creds,
          sessions := ⟨st.nextSid, c.id⟩ :: st.sessions,
          nextSid := st.nextSid + 1 })

/-- Modelled from the spec: releaseSession decrements the owning credential
count and is idempotent: releasing a handle that is no longer live is a
no-op, not an error. -/
def releaseSession (sid : Nat) (st : SMState) : SMState :=
  match st.sessions.find? (fun s => s.sid == sid) with
  | none => st
  | some s =>
      { creds := bumpCred s.credId (-1) st.creds,
        sessions := st.sessions.filter (fun t => t.sid != sid),
        nextSid := st.nextSid }

/-- How many live sessions a credential id owns. -/
def ownedCount (ss : List SessionRec) (cid : Nat) : Nat :=
  ss.countP (fun s => s.credId == cid)

/-- The Session Manager invariant: distinct credential ids, each count equal
to the number of sessions the credential owns and bounded by its max,
distinct live session handles, all below the next handle. -/
def SMInv (st : SMState) : Prop :=
  (st.creds.map Credential.id).Nodup
  ∧ (∀ c ∈ st.creds, c.activeStreams = (ownedCount st.sessions c.id : Int)
      ∧ c.activeStreams ≤ (c.maxConcurrentStreams : Int))
  ∧ (st.sessions.map SessionRec.sid).Nodup
  ∧ (∀ s ∈ st.sessions, s.sid < st.nextSid)

/-- The manager starts with the configured credentials, all counts at zero
and no live session. -/
def initState (creds0 : List Credential) : SMState :=
  { creds := creds0.map (fun c => { c with activeStreams := 0 }),
    sessions := [], nextSid := 0 }

/-- One acquire or release request. -/
inductive SMOp where
  | acq
  | rel (sid : Nat)
deriving DecidableEq

def smStep (st : SMState) : SMOp → SMState
  | SMOp.acq =>
      match acquireSession st with
      | none => st
      | some (_, st1) => st1
  | SMOp.rel sid => releaseSession sid st

/-- The manager state after a sequence of acquire/release requests. -/
def runSM (creds0 : List Credential) (ops : List SMOp) : SMState :=
  ops.foldl smStep (initState creds0)

theorem bumpCred_map_id (cs : List Credential) (cid : Nat) (delta : Int) :
    (bumpCred cid delta cs).map Credential.id = cs.map Credential.id := by
  induction cs with
  | nil => rfl
  | cons c cs ih =>
    show ((if c.id = cid then _ else c).id) :: _ = _
    by_cases h : c.id = cid
    · simpa [bumpCred, h] using congrArg (List.cons c.id) ih
    · simpa [bumpCred, h] using congrArg (List.cons c.id) ih

theorem filter_all_true {α : Type} (q : α → Bool) (l : List α)
    (h : ∀ u ∈ l, q u = true) : l.filter q = l :=
  List.filter_eq_self.mpr h

theorem countP_split_at (p : SessionRec → Bool) (ss : List SessionRec)
    (s : SessionRec) (hnd : (ss.map SessionRec.sid).Nodup) (hs : s ∈ ss) :
    ss.countP p
      = (ss.filter (fun t => t.sid != s.sid)).countP p + (if p s then 1 else 0) := by
  induction ss with
  | nil => cases hs
  | cons t ts ih =>
    rw [List.map_cons, List.nodup_cons] at hnd
    obtain ⟨hnotin, hndts⟩ := hnd
    by_cases hts : t.sid = s.sid
    · have hst : s = t := by
        rcases List.mem_cons.mp hs with h | h
        · exact h
        · exact absurd (hts ▸ List.mem_map_of_mem SessionRec.sid h) hnotin
      have hfilter : ts.filter (fun u => u.sid != s.sid) = ts := by
        refine filter_all_true _ ts ?_
        intro u hu
        have : u.sid ≠ t.sid := by
          intro hcon
          exact hnotin (hcon ▸ List.mem_map_of_mem SessionRec.sid hu)
        simp [hst ▸ this]
      rw [List.filter_cons, if_neg (by simp [hts]), hfilter, List.countP_cons, hst]
    · have hsts : s ∈ ts := by
        rcases List.mem_cons.mp hs with h | h
        · exact absurd (congrArg SessionRec.sid h).symm hts
        · exact h
      rw [List.filter_cons, if_pos (by simp [hts]), List.countP_cons, List.countP_cons,
        ih hndts hsts]
      omega

theorem acquire_preserves_inv (st : SMState) (h : SMInv st) :
    SMInv (smStep st SMOp.acq) := by
  obtain ⟨hids, hcounts, hsids, hbound⟩ := h
  unfold smStep acquireSession
  rcases hfind : st.creds.find? hasCapacity with _ | c
  · exact ⟨hids, hcounts, hsids, hbound⟩
  · have hcmem : c ∈ st.creds := List.mem_of_find?_eq_some hfind
    have hccap : hasCapacity c = true := List.find?_some hfind
    have hclt : c.activeStreams < (c.maxConcurrentStreams : Int) := by
      unfold hasCapacity at hccap
      simp only [Bool.and_eq_true, decide_eq_true_eq] at hccap
      exact hccap.2
    refine ⟨by simpa [bumpCred_map_id] using hids, ?_, ?_, ?_⟩
    · intro d hd
      simp only [bumpCred, List.mem_map] at hd
      obtain ⟨e, he, rfl⟩ := hd
      by_cases hid : e.id = c.id
      · have hec : e = c := List.inj_on_of_nodup_map hids he hcmem hid
        subst hec
        rw [if_pos hid]
        have hcount := hcounts e he
        constructor
        · show e.activeStreams + 1 = (ownedCount (⟨st.nextSid, e.id⟩ :: st.sessions) e.id : Int)
          unfold ownedCount at hcount ⊢
          rw [List.countP_cons]
          simp only [beq_self_eq_true, if_pos]
          push_cast
          omega
        · show e.activeStreams + 1 ≤ (e.maxConcurrentStreams : Int)
          omega
      · rw [if_neg hid]
        have hcount := hcounts e he
        refine ⟨?_, hcount.2⟩
        show e.activeStreams = (ownedCount (⟨st.nextSid, c.id⟩ :: st.sessions) e.id : Int)
        unfold ownedCount at hcount ⊢
        rw [List.countP_cons]
        have : ((⟨st.nextSid, c.id⟩ : SessionRec).credId == e.id) = false := by
          simp only [beq_eq_false_iff_ne, ne_eq]
          exact fun hcon => hid hcon.symm
        rw [this]
        simpa using hcount.1
    · show (st.nextSid :: st.sessions.map SessionRec.sid).Nodup
      rw [List.nodup_cons]
      refine ⟨?_, hsids⟩
      intro hcon
      obtain ⟨s, hsmem, hssid⟩ := List.mem_map.mp hcon
      exact absurd (hssid ▸ hbound s hsmem) (Nat.lt_irrefl st.nextSid)
    · intro s hsmem
      rcases List.mem_cons.mp hsmem with h | h
      · rw [h]; exact Nat.lt_succ_self _
      · exact Nat.lt_succ_of_lt (hbound s h)

theorem release_preserves_inv (sid : Nat) (st : SMState) (h : SMInv st) :
    SMInv (releaseSession sid st) := by
  obtain ⟨hids, hcounts, hsids, hbound⟩ := h
  rcases hfind : st.sessions.find? (fun s => s.sid == sid) with _ | s
  · have hrel : releaseSession sid st = st := by
      unfold releaseSession
      rw [hfind]
    rw [hrel]
    exact ⟨hids, hcounts, hsids, hbound⟩
  · have hsmem : s ∈ st.sessions := List.mem_of_find?_eq_some hfind
    have hssid : s.sid = sid := by simpa using List.find?_some hfind
    have hrel : releaseSession sid st
        = { creds := bumpCred s.credId (-1) st.creds,
            sessions := st.sessions.filter (fun t => t.sid != sid),
            nextSid := st.nextSid } := by
      unfold releaseSession
      rw [hfind]
    rw [hrel]
    refine ⟨by simpa [bumpCred_map_id] using hids, ?_, ?_, ?_⟩
    · intro d hd
      simp only [bumpCred, List.mem_map] at hd
      obtain ⟨e, he, rfl⟩ := hd
      have hcount := hcounts e he
      have hsplit := countP_split_at (fun t => t.credId == e.id) st.sessions s hsids hsmem
      rw [hssid] at hsplit
      by_cases hid : e.id = s.credId
      · have hps : (s.credId == e.id) = true := by simp [beq_iff_eq, hid]
        simp only [hps, if_true] at hsplit
        rw [if_pos hid]
        constructor
        · show e.activeStreams + (-1)
              = (ownedCount (st.sessions.filter (fun t => t.sid != sid)) e.id : Int)
          unfold ownedCount at hcount ⊢
          rw [hsplit] at hcount
          have h1 := hcount.1
          push_cast at h1 ⊢
          omega
        · show e.activeStreams + (-1) ≤ (e.maxConcurrentStreams : Int)
          have := hcount.2
          omega
      · have hps : (s.credId == e.id) = false := by
          simp only [beq_eq_false_iff_ne, ne_eq]
          exact fun hcon => hid hcon.symm
        simp only [hps, if_false] at hsplit
        rw [if_neg hid]
        refine ⟨?_, hcount.2⟩
        show e.activeStreams
            = (ownedCount (st.sessions.filter (fun t => t.sid != sid)) e.id : Int)
        unfold ownedCount at hcount ⊢
        rw [hsplit] at hcount
        simpa using hcount.1
    · exact hsids.sublist (List.Sublist.map SessionRec.sid (List.filter_sublist _))
    · intro t ht
      exact hbound t (List.mem_of_mem_filter ht)

theorem initState_inv (creds0 : List Credential)
    (h : (creds0.map Credential.id).Nodup) : SMInv (initState creds0) := by
  refine ⟨?_, ?_, List.nodup_nil, ?_⟩
  · have : ((creds0.map (fun c => { c with activeStreams := 0 })).map Credential.id)
        = creds0.map Credential.id := by
      rw [List.map_map]
      rfl
    rw [show (initState creds0).creds = creds0.map (fun c => { c with activeStreams := 0 }) from rfl,
      this]
    exact h
  · intro c hc
    simp only [initState, List.mem_map] at hc
    obtain ⟨e, -, rfl⟩ := hc
    exact ⟨by simp [ownedCount, initState], by positivity⟩
  · intro s hs
    cases hs

theorem smStep_preserves_inv (st : SMState) (op : SMOp) (h : SMInv st) :
    SMInv (smStep st op) := by
  cases op with
  | acq => exact acquire_preserves_inv st h
  | rel sid => exact release_preserves_inv sid st h

theorem runSM_inv (creds0 : List Credential) (ops : List SMOp)
    (h : (creds0.map Credential.id).Nodup) : SMInv (runSM creds0 ops) := by
  unfold runSM
  have : ∀ (l : List SMOp) (st : SMState), SMInv st → SMInv (l.foldl smStep st) := by
    intro l
    induction l with
    | nil => exact fun st hst => hst
    | cons op l ih => exact fun st hst => ih _ (smStep_preserves_inv st op hst)
  exact this ops _ (initState_inv creds0 h)

theorem releaseSession_idem (sid : Nat) (st : SMState) :
    releaseSession sid (releaseSession sid st) = releaseSession sid st := by
  rcases hfind : st.sessions.find? (fun s => s.sid == sid) with _ | s
  · have hid : releaseSession sid st = st := by
      unfold releaseSession
      rw [hfind]
    rw [hid, hid]
  · have hsessions : (releaseSession sid st).sessions
        = st.sessions.filter (fun t => t.sid != sid) := by
      unfold releaseSession
      rw [hfind]
    have hnone : (releaseSession sid st).sessions.find? (fun t => t.sid == sid) = none := by
      rw [hsessions, List.find?_eq_none]
      intro x hx
      have hb := List.of_mem_filter hx
      simp only [bne_iff_ne, ne_eq] at hb
      simp [hb]
    generalize hst1 : releaseSession sid st = st1 at hnone ⊢
    unfold releaseSession
    rw [hnone]

/-- C3: releasing a session twice is a no-op (the second release changes
nothing), and over every reachable sequence of acquire/release requests each
credential's active-stream count stays between zero and that credential's max
concurrent streams. -/
theorem C3_session_counts_bounded (creds0 : List Credential) (ops : List SMOp)
    (h : (creds0.map Credential.id).Nodup) :
    (∀ c ∈ (runSM creds0 ops).creds,
        0 ≤ c.activeStreams ∧ c.activeStreams ≤ (c.maxConcurrentStreams : Int))
    ∧ (∀ (st : SMState) (sid : Nat),
        releaseSession sid (releaseSession sid st) = releaseSession sid st) := by
  refine ⟨?_, fun st sid => releaseSession_idem sid st⟩
  intro c hc
  obtain ⟨-, hcounts, -, -⟩ := runSM_inv creds0 ops h
  obtain ⟨heq, hle⟩ := hcounts c hc
  refine ⟨?_, hle⟩
  rw [heq]
  positivity

theorem C3_witness :
    (([⟨1, 2, 0, true, true⟩] : List Credential).map Credential.id).Nodup
    ∧ (0 ≤ (⟨1, 2, 0, true, true⟩ : Credential).activeStreams
        ∧ (⟨1, 2, 0, true, true⟩ : Credential).activeStreams
            ≤ ((⟨1, 2, 0, true, true⟩ : Credential).maxConcurrentStreams : Int)) := by
  have h := C3_session_counts_bounded [⟨1, 2, 0, true, true⟩] [SMOp.acq, SMOp.rel 0] (by decide)
  exact ⟨by decide, h.1 ⟨1, 2, 0, true, true⟩ (by decide)⟩

end ArchiveXM
